import Mathlib

/-!
Verification of the llnode heap-scanning engine (src/llscan.h, src/llscan.cc).

This file gives a shallow embedding of the scanning/indexing/graph-building
core: the type histogram records, the per-scan-session state (histogram maps,
reference indices, context set), the pagination state of `findjsinstances`,
the three reference scanners, the recursive reference-graph traversal, and the
heap-snapshot builder/serializer.  External collaborators (lldb memory reads,
the v8 layout model) are modelled as inputs: a decoded element is an
`Option` value (`none` meaning the external decode failed or the value is not
of the expected kind), exactly mirroring the `Error`-guarded accesses in the
source.  Machine `uint64_t` counters are modelled as `Nat` reduced modulo
`2^64` where the source performs wrapping arithmetic.
-/

/-- Wrap-around bound of the C++ `uint64_t` counters. -/
def U64SIZE : Nat := 18446744073709551616

/-- Reduction modulo `2^64`, the behaviour of `uint64_t` addition. -/
def u64 (n : Nat) : Nat := n % U64SIZE

/-! ### TypeRecord (src/llscan.h lines 230-268)

`instances_` is a `std::unordered_set<uint64_t>`; it is modelled as a
duplicate-free list (insertion prepends only when the address is absent,
mirroring `insert` returning `result.second == true`). -/

structure TypeRecord where
  type_name : String
  instance_count : Nat
  total_instance_size : Nat
  instances : List Nat
deriving DecidableEq, Repr

/-- Constructor `TypeRecord(std::string& type_name)`: zero counters, empty set. -/
def freshRecord (type_name : String) : TypeRecord :=
  { type_name := type_name, instance_count := 0, total_instance_size := 0, instances := [] }

/-- Embedding of `TypeRecord::AddInstance` (llscan.h lines 240-246): insert the
address into the set; only when the insertion actually happened (`result.second`)
increment `instance_count_` and add `size` to `total_instance_size_`. -/
def TypeRecord.AddInstance (t : TypeRecord) (address : Nat) (size : Nat) : TypeRecord :=
  if address ∈ t.instances then t
  else
    { t with
      instances := address :: t.instances,
      instance_count := u64 (t.instance_count + 1),
      total_instance_size := u64 (t.total_instance_size + size) }

/-- A whole sequence of `AddInstance` calls, `(address, size)` pairs in call order. -/
def applyCalls (t : TypeRecord) (calls : List (Nat × Nat)) : TypeRecord :=
  calls.foldl (fun r c => r.AddInstance c.1 c.2) t

/-- Sum of the sizes recorded at each address's first insertion: a call
contributes its size exactly when its address has not been seen before. -/
def newSizeSum (seen : List Nat) : List (Nat × Nat) → Nat
  | [] => 0
  | c :: rest => if c.1 ∈ seen then newSizeSum seen rest else c.2 + newSizeSum (c.1 :: seen) rest

/-! ### Association-list helpers

The source keeps its maps in `std::map`; only key-membership and the stored
value are observable to the claims, so maps are modelled as association
lists with update-in-place (`assocSet` replaces an existing binding, appending
a fresh binding at the end otherwise). -/

def assocFind {κ β : Type} [DecidableEq κ] : List (κ × β) → κ → Option β
  | [], _ => none
  | e :: rest, k => if e.fst = k then some e.snd else assocFind rest k

def assocSet {κ β : Type} [DecidableEq κ] : List (κ × β) → κ → β → List (κ × β)
  | [], k, v => [(k, v)]
  | e :: rest, k, v => if e.fst = k then (k, v) :: rest else e :: assocSet rest k v

/-- Append `src` to the references vector stored under `k`, creating the vector
when absent.  This is exactly `references = GetReferencesBy...(k);
references->push_back(src)` from the scanners. -/
def appendRef {κ : Type} [DecidableEq κ] (m : List (κ × List Nat)) (k : κ) (src : Nat) :
    List (κ × List Nat) :=
  match assocFind m k with
  | some v => assocSet m k (v ++ [src])
  | none => assocSet m k [src]

/-- Number of occurrences of `src` in the references vector stored under `k`
(zero when the key is absent). -/
def countRef {κ : Type} [DecidableEq κ] (m : List (κ × List Nat)) (k : κ) (src : Nat) : Nat :=
  ((assocFind m k).getD []).count src

/-! ### LLScan session state (src/llscan.h lines 342-409)

`target_` is the identity of the selected `SBTarget` (only its equality is
observable), the remaining fields are the histogram maps, the three reference
indices and the context set (`std::unordered_set`, modelled as a
duplicate-free list). -/

structure LLScanState where
  target : Nat
  mapstoinstances : List (String × TypeRecord)
  detailedmapstoinstances : List (String × TypeRecord)
  references_by_value : List (Nat × List Nat)
  references_by_property : List (String × List Nat)
  references_by_string : List (String × List Nat)
  contexts : List Nat
deriving DecidableEq, Repr

/-- Embedding of `LLScan::GetReferencesByValue` (llscan.h lines 360-365):
create-on-read of the references vector, returning the stored vector. -/
def GetReferencesByValue (s : LLScanState) (address : Nat) : List Nat × LLScanState :=
  match assocFind s.references_by_value address with
  | some v => (v, s)
  | none => ([], { s with references_by_value := assocSet s.references_by_value address [] })

/-- Embedding of `LLScan::GetReferencesByProperty` (llscan.h lines 371-376). -/
def GetReferencesByProperty (s : LLScanState) (property : String) : List Nat × LLScanState :=
  match assocFind s.references_by_property property with
  | some v => (v, s)
  | none => ([], { s with references_by_property := assocSet s.references_by_property property [] })

/-- Embedding of `LLScan::GetReferencesByString` (llscan.h lines 382-387). -/
def GetReferencesByString (s : LLScanState) (string_value : String) : List Nat × LLScanState :=
  match assocFind s.references_by_string string_value with
  | some v => (v, s)
  | none => ([], { s with references_by_string := assocSet s.references_by_string string_value [] })

/-- Embedding of `LLScan::AreReferencesByValueLoaded`: `size() > 0` on the map. -/
def AreReferencesByValueLoaded (s : LLScanState) : Bool := s.references_by_value.length > 0

/-- Embedding of `LLScan::AreReferencesByPropertyLoaded`. -/
def AreReferencesByPropertyLoaded (s : LLScanState) : Bool := s.references_by_property.length > 0

/-- Embedding of `LLScan::AreReferencesByStringLoaded`. -/
def AreReferencesByStringLoaded (s : LLScanState) : Bool := s.references_by_string.length > 0

/-- Embedding of `LLScan::ClearMapsToInstances` (llscan.cc lines 1670-1677):
deletes the records of `mapstoinstances_` and clears that map.  Note the
source clears only the coarse map, not `detailedmapstoinstances_`. -/
def ClearMapsToInstances (s : LLScanState) : LLScanState :=
  { s with mapstoinstances := [] }

/-- Embedding of `LLScan::ClearReferences` (llscan.cc lines 1679-1699): clears
the three reference indices.  The context set is not touched. -/
def ClearReferences (s : LLScanState) : LLScanState :=
  { s with references_by_value := [], references_by_property := [], references_by_string := [] }

/-- Target-change half of `LLScan::ScanHeapForObjects` (llscan.cc lines
1497-1511): when the selected target differs from the last scan's, clear the
coarse histogram map and the reference indices and remember the new target. -/
def ScanHeapPrepare (s : LLScanState) (target : Nat) : LLScanState :=
  if s.target ≠ target then
    let s1 := ClearMapsToInstances s
    let s2 := ClearReferences s1
    { s2 with target := target }
  else s

/-- Embedding of `LLScan::ScanHeapForObjects` (llscan.cc lines 1497-1525).
`populate` stands for the `ScanMemoryRegions`/`FindJSObjectsVisitor` pass,
which depends on target memory; it runs exactly when the coarse map is empty. -/
def ScanHeapForObjects (s : LLScanState) (target : Nat)
    (populate : LLScanState → LLScanState) : LLScanState :=
  let s1 := ScanHeapPrepare s target
  if s1.mapstoinstances = [] then populate s1 else s1

/-- Embedding of `FindJSObjectsVisitor::InsertOnContexts` (llscan.cc lines
1442-1446): `std::unordered_set::insert` of the word. -/
def InsertOnContexts (s : LLScanState) (word : Nat) : LLScanState :=
  if word ∈ s.contexts then s else { s with contexts := word :: s.contexts }

/-- Embedding of `FindJSObjectsVisitor::InsertOnMapsToInstances` (llscan.cc
lines 1448-1459): fetch-or-create the `TypeRecord` for the type name, then
`AddInstance(word, size)`. -/
def InsertOnMapsToInstances (s : LLScanState) (word : Nat) (type_name : String)
    (size : Nat) : LLScanState :=
  let t := match assocFind s.mapstoinstances type_name with
           | some t => t
           | none => freshRecord type_name
  { s with mapstoinstances := assocSet s.mapstoinstances type_name (t.AddInstance word size) }

/-- Embedding of `FindJSObjectsVisitor::InsertOnDetailedMapsToInstances`
(llscan.cc lines 1461-1481), with the type-name-with-properties key and the
descriptor counts supplied by the (externally decoded) map cache entry. -/
def InsertOnDetailedMapsToInstances (s : LLScanState) (word : Nat)
    (type_name_with_properties : String) (size : Nat) : LLScanState :=
  let t := match assocFind s.detailedmapstoinstances type_name_with_properties with
           | some t => t
           | none => freshRecord type_name_with_properties
  { s with detailedmapstoinstances :=
      assocSet s.detailedmapstoinstances type_name_with_properties (t.AddInstance word size) }

/-- The state-mutating operations of a scan session, used to state frame
properties of the context set. -/
inductive LLScanOp where
  | scanPrepare (newTarget : Nat)
  | clearMaps
  | clearRefs
  | insertOnContexts (word : Nat)
  | insertOnMaps (word : Nat) (type_name : String) (size : Nat)
  | insertOnDetailedMaps (word : Nat) (key : String) (size : Nat)
  | getByValue (address : Nat)
  | getByProperty (property : String)
  | getByString (string_value : String)
  | pushByValue (key : Nat) (src : Nat)
  | pushByProperty (key : String) (src : Nat)
  | pushByString (key : String) (src : Nat)
deriving DecidableEq, Repr

/-- Effect of each session operation on the session state. -/
def applyOp (s : LLScanState) : LLScanOp → LLScanState
  | .scanPrepare t => ScanHeapPrepare s t
  | .clearMaps => ClearMapsToInstances s
  | .clearRefs => ClearReferences s
  | .insertOnContexts w => InsertOnContexts s w
  | .insertOnMaps w tn sz => InsertOnMapsToInstances s w tn sz
  | .insertOnDetailedMaps w k sz => InsertOnDetailedMapsToInstances s w k sz
  | .getByValue a => (GetReferencesByValue s a).2
  | .getByProperty p => (GetReferencesByProperty s p).2
  | .getByString v => (GetReferencesByString s v).2
  | .pushByValue k src => { s with references_by_value := appendRef s.references_by_value k src }
  | .pushByProperty k src =>
      { s with references_by_property := appendRef s.references_by_property k src }
  | .pushByString k src =>
      { s with references_by_string := appendRef s.references_by_string k src }

/-! ### findjsinstances pagination (src/llscan.h lines 31-36, llscan.cc lines 236-281) -/

structure cmd_pagination_t where
  total_entries : Int := 0
  current_page : Int := 0
  output_limit : Int := 0
  command : String := ""
deriving DecidableEq, Repr

/-- Pagination update of `FindInstancesCmd::DoExecute` (llscan.cc lines
236-251): reset to page 0 on a changed query (command text or output limit),
otherwise advance one page, wrapping to 0 once `(page+1)*limit` exceeds the
total (or the limit is unset). -/
def updatePagination (p : cmd_pagination_t) (full_cmd : String) (opts_output_limit : Int)
    (instance_count : Int) : cmd_pagination_t :=
  if full_cmd ≠ p.command ∨ opts_output_limit ≠ p.output_limit then
    { total_entries := instance_count, command := full_cmd, current_page := 0,
      output_limit := opts_output_limit }
  else if p.output_limit ≤ 0 ∨ (p.current_page + 1) * p.output_limit > p.total_entries then
    { p with current_page := 0 }
  else
    { p with current_page := p.current_page + 1 }

/-- One-based range of instances shown by `FindInstancesCmd::DoExecute`
(llscan.cc lines 253-280): `initial_p_offset + 1` through `final_p_offset`,
as printed by `"(Showing %d to %d of %d instances)"`. -/
def pageBounds (p : cmd_pagination_t) (opts_output_limit : Int) : Int × Int :=
  let initial_p_offset := p.current_page * opts_output_limit
  let final0 :=
    initial_p_offset + min p.output_limit (p.total_entries - p.current_page * p.output_limit)
  let final_p_offset := if final0 ≤ 0 then p.total_entries else final0
  (initial_p_offset + 1, final_p_offset)

/-! ### The three reference scanners (llscan.cc lines 944-978, 1069-1090, 1249-1307)

A scanner consumes one source object.  The externally decoded views of the
object are inputs: `elems` is the list of indexed elements
(`GetArrayElement`; `none` when the element fetch reported an error) and
`entries` the list of key/value property entries (`none` for the whole list
when `Entries(err)` failed).  For the string-content scanner each slot is
already reduced to `some text` when the slot holds a string that decoded to
`text`, and `none` otherwise (non-string value or any decode error: every
such case is skipped by a `continue` in the source). -/

/-- Element loop of `FindReferencesCmd::ReferenceScanner::ScanRefs(JSObject)`
(llscan.cc lines 949-960): on an element fetch error the loop `break`s;
otherwise the source address is appended to the value's by-value vector
unless the value is in the per-call `already_saved` set. -/
def ReferenceScanner.ScanRefsElems (src : Nat) :
    List (Option Nat) → List (Nat × List Nat) → List Nat → List (Nat × List Nat) × List Nat
  | [], m, saved => (m, saved)
  | none :: _, m, saved => (m, saved)
  | some v :: rest, m, saved =>
    if v ∈ saved then ReferenceScanner.ScanRefsElems src rest m saved
    else ReferenceScanner.ScanRefsElems src rest (appendRef m v src) (v :: saved)

/-- Property-entry loop of `ReferenceScanner::ScanRefs(JSObject)` (llscan.cc
lines 965-977): same `already_saved` set, no early break. -/
def ReferenceScanner.ScanRefsEntries (src : Nat) :
    List Nat → List (Nat × List Nat) → List Nat → List (Nat × List Nat) × List Nat
  | [], m, saved => (m, saved)
  | v :: rest, m, saved =>
    if v ∈ saved then ReferenceScanner.ScanRefsEntries src rest m saved
    else ReferenceScanner.ScanRefsEntries src rest (appendRef m v src) (v :: saved)

/-- Embedding of `ReferenceScanner::ScanRefs(JSObject)` (llscan.cc lines
944-978): element loop, then (when `Entries` succeeded) the entry loop,
sharing one `already_saved` set. -/
def ReferenceScanner.ScanRefs (src : Nat) (elems : List (Option Nat))
    (entries : Option (List Nat)) (m : List (Nat × List Nat)) : List (Nat × List Nat) :=
  let r1 := ReferenceScanner.ScanRefsElems src elems m []
  match entries with
  | none => r1.1
  | some es => (ReferenceScanner.ScanRefsEntries src es r1.1 r1.2).1

/-- Embedding of `PropertyScanner::ScanRefs(JSObject)` (llscan.cc lines
1069-1090): for every entry whose key decodes (`none` keys are skipped by
`continue`), append the source to the by-property vector of that key.  There
is no `already_saved` set in this scanner. -/
def PropertyScanner.ScanRefs (src : Nat) (entries : Option (List (Option String)))
    (m : List (String × List Nat)) : List (String × List Nat) :=
  match entries with
  | none => m
  | some es =>
    es.foldl (fun acc k? => match k? with
      | none => acc
      | some k => appendRef acc k src) m

/-- Slot loop of `StringScanner::ScanRefs(JSObject)` (llscan.cc lines
1255-1306): the element loop and the entry loop have the same shape — a slot
that is not a decodable string is skipped (`continue`), a decoded text is
appended to the by-string vector unless it is in the per-call
`already_saved` set of strings. -/
def StringScanner.ScanRefsSlots (src : Nat) :
    List (Option String) → List (String × List Nat) → List String →
      List (String × List Nat) × List String
  | [], m, saved => (m, saved)
  | none :: rest, m, saved => StringScanner.ScanRefsSlots src rest m saved
  | some v :: rest, m, saved =>
    if v ∈ saved then StringScanner.ScanRefsSlots src rest m saved
    else StringScanner.ScanRefsSlots src rest (appendRef m v src) (v :: saved)

/-- Embedding of `StringScanner::ScanRefs(JSObject)` (llscan.cc lines
1249-1307): element slots, then (when `Entries` succeeded) property-value
slots, sharing one `already_saved` set. -/
def StringScanner.ScanRefs (src : Nat) (elems : List (Option String))
    (entries : Option (List (Option String))) (m : List (String × List Nat)) :
    List (String × List Nat) :=
  let r1 := StringScanner.ScanRefsSlots src elems m []
  match entries with
  | none => r1.1
  | some es => (StringScanner.ScanRefsSlots src es r1.1 r1.2).1

/-! ### Recursive reference-graph traversal (llscan.cc lines 635-713, 778-826)

`RefWorld` fixes the data the traversal reads: `g` is the by-value reference
index after indexing (target address, list of referrer addresses, as returned
by `ReferenceScanner::GetReferences`, with absent keys giving the empty
vector), `ctxs` the context set together with each context's decoded local
slot values (`Context::Locals`; contexts whose locals cannot be read are
absent), and `expandable a` tells whether address `a` decodes as a
histogram-shape object or a string (the two branches of `PrintReferences`
that print and recurse; other types fall through and neither print nor
recurse).  The shared-by-reference `visited_references` vector is threaded
through the functions as explicit state. -/

structure RefWorld where
  g : List (Nat × List Nat)
  ctxs : List (Nat × List Nat)
  expandable : Nat → Bool

/-- References vector of an address as produced by
`ReferenceScanner::GetReferences` over the loaded by-value index (an absent
key yields a freshly created empty vector). -/
def lookupRefs (g : List (Nat × List Nat)) (a : Nat) : List Nat :=
  match g.find? (fun p => p.fst = a) with
  | some p => p.snd
  | none => []

/-- Context addresses reported for `value` by
`ReferenceScanner::PrintContextRefs` (llscan.cc lines 778-826): one entry per
local slot of a context whose stored value equals `value`. -/
def ctxMatches (ctxs : List (Nat × List Nat)) (value : Nat) : List Nat :=
  ctxs.flatMap (fun c => (c.snd.filter (fun s => s = value)).map (fun _ => c.fst))

/-- Observable output events of the traversal: a printed referrer line, the
`[seen above]` terminal marker, the expansion of a not-yet-visited address,
and a printed context-reference line. -/
inductive RefEvent where
  | printRef (src : Nat)
  | marker (a : Nat)
  | expand (a : Nat)
  | ctxRef (c : Nat)
deriving DecidableEq, Repr

/-- Addresses of the `expand` events of a trace, in order.  An `expand a`
event corresponds to `PrintRecursiveReferences` pushing `a` onto the visited
vector and recursing into `PrintReferences`. -/
def expandsOf : List RefEvent → List Nat
  | [] => []
  | RefEvent.expand a :: t => a :: expandsOf t
  | RefEvent.printRef _ :: t => expandsOf t
  | RefEvent.marker _ :: t => expandsOf t
  | RefEvent.ctxRef _ :: t => expandsOf t

mutual

/-- Embedding of `FindReferencesCmd::PrintRecursiveReferences` (llscan.cc
lines 635-659): when the address is already in the shared visited vector,
print the `[seen above]` marker and stop; otherwise push the address onto the
visited vector, build a `ReferenceScanner` for it, fetch its references and
recurse into `PrintReferences`.  `fuel` is a modelling artifact bounding the
recursion depth; the termination theorem shows a fuel computable from the
world suffices, which is the termination of the C++ recursion. -/
def printRecursiveReferences (w : RefWorld) :
    Nat → List Nat → Nat → Option (List RefEvent × List Nat)
  | 0, _, _ => none
  | fuel+1, visited, address =>
    if address ∈ visited then some ([RefEvent.marker address], visited)
    else
      match printReferences w fuel (lookupRefs w.g address) address (visited ++ [address]) with
      | none => none
      | some (t, vis) => some (RefEvent.expand address :: t, vis)
termination_by fuel visited address => (fuel, 0, 0)

/-- Embedding of `FindReferencesCmd::PrintReferences` (llscan.cc lines
661-713) in recursive mode: walk the references vector, printing and
recursing per expandable referrer, then report (and recurse through) the
context references of the sought value. -/
def printReferences (w : RefWorld) :
    Nat → List Nat → Nat → List Nat → Option (List RefEvent × List Nat)
  | fuel, refs, value, visited =>
    match printReferencesLoop w fuel refs visited with
    | none => none
    | some (t1, v1) =>
      match printContextLoop w fuel (ctxMatches w.ctxs value) v1 with
      | none => none
      | some (t2, v2) => some (t1 ++ t2, v2)
termination_by fuel refs value visited => (fuel, 2, 0)

/-- Referrer loop of `PrintReferences` (llscan.cc lines 668-707): a referrer
that decodes as an object or string is printed by `PrintRefs` and, with
`--recursive`, expanded through `PrintRecursiveReferences`; other types fall
through silently. -/
def printReferencesLoop (w : RefWorld) :
    Nat → List Nat → List Nat → Option (List RefEvent × List Nat)
  | _, [], visited => some ([], visited)
  | fuel, a :: rest, visited =>
    if w.expandable a then
      match printRecursiveReferences w fuel visited a with
      | none => none
      | some (t1, v1) =>
        match printReferencesLoop w fuel rest v1 with
        | none => none
        | some (t2, v2) => some (RefEvent.printRef a :: (t1 ++ t2), v2)
    else
      printReferencesLoop w fuel rest visited
termination_by fuel refs visited => (fuel, 1, refs.length)

/-- Context loop of `ReferenceScanner::PrintContextRefs` (llscan.cc lines
785-825) in recursive mode: each matching context slot prints a line and
expands the context address through `PrintRecursiveReferences`. -/
def printContextLoop (w : RefWorld) :
    Nat → List Nat → List Nat → Option (List RefEvent × List Nat)
  | _, [], visited => some ([], visited)
  | fuel, c :: rest, visited =>
    match printRecursiveReferences w fuel visited c with
    | none => none
    | some (t1, v1) =>
      match printContextLoop w fuel rest v1 with
      | none => none
      | some (t2, v2) => some (RefEvent.ctxRef c :: (t1 ++ t2), v2)
termination_by fuel cs visited => (fuel, 1, cs.length)

end

/-- Every address the traversal can ever expand: the seed references, every
referrer stored in the by-value index, and every context address. -/
def reachableAddrs (w : RefWorld) (refs : List Nat) : Finset Nat :=
  (refs ++ w.g.flatMap (fun p => p.snd) ++ w.ctxs.map (fun p => p.fst)).toFinset

/-- Fuel sufficient for the whole traversal: one more than the number of
distinct expandable addresses. -/
def termFuel (w : RefWorld) (refs : List Nat) : Nat := (reachableAddrs w refs).card + 1

/-! ### findrefs command dispatch (llscan.cc lines 472-593)

Only the control flow is modelled: which effects run, in which order, and
with which error result.  `FindRefsQuery` fixes the externally determined
outcomes (option parsing, expression evaluation, the SMI check).
`ScanHeapForObjects` always returns true in the source, so its failure branch
is not reachable and not modelled. -/

inductive ScanType where
  | kFieldValue
  | kPropertyName
  | kStringValue
  | kBadOption
deriving DecidableEq, Repr

inductive FindRefsEvent where
  | evaluateExpression
  | constructScanner (scan_type : ScanType)
  | scanHeapForObjects
  | scanForReferences
  | setError (msg : String)
  | printReferencesCall
deriving DecidableEq, Repr

structure FindRefsQuery where
  cmd_present : Bool
  target_valid : Bool
  param_present : Bool
  scan_type : ScanType
  recursive_scan : Bool
  expr_eval_fails : Bool
  expr_is_smi : Bool
  extra_param : Bool
  references_loaded : Bool
  recursive_references_loaded : Bool
deriving DecidableEq, Repr

/-- Tail of `FindReferencesCmd::DoExecute` after a scanner was constructed
(llscan.cc lines 557-592): ensure the heap map, load the scanner's index if
needed, initialise the recursive scanner's index if needed, then print. -/
def findRefsAfterScanner (q : FindRefsQuery) (tr : List FindRefsEvent) :
    Bool × List FindRefsEvent :=
  let tr := tr ++ [FindRefsEvent.scanHeapForObjects]
  let tr := if q.references_loaded then tr else tr ++ [FindRefsEvent.scanForReferences]
  let tr := if q.recursive_scan && !q.recursive_references_loaded
            then tr ++ [FindRefsEvent.scanForReferences] else tr
  (true, tr ++ [FindRefsEvent.printReferencesCall])

/-- Embedding of `FindReferencesCmd::DoExecute` (llscan.cc lines 472-593):
result status and the ordered trace of effects. -/
def FindReferencesDoExecute (q : FindRefsQuery) : Bool × List FindRefsEvent :=
  if !q.cmd_present then (false, [FindRefsEvent.setError "USAGE: v8 findrefs expr"])
  else if !q.target_valid then
    (false, [FindRefsEvent.setError "No valid process, please start something"])
  else if !q.param_present then (false, [FindRefsEvent.setError "Missing search parameter"])
  else
    match q.scan_type with
    | ScanType.kFieldValue =>
      if q.expr_eval_fails then
        (false, [FindRefsEvent.evaluateExpression,
                 FindRefsEvent.setError "expression evaluation failed"])
      else if q.expr_is_smi then
        (false, [FindRefsEvent.evaluateExpression,
                 FindRefsEvent.setError "Search value is an SMI."])
      else
        findRefsAfterScanner q
          [FindRefsEvent.evaluateExpression, FindRefsEvent.constructScanner ScanType.kFieldValue]
    | ScanType.kPropertyName =>
      if q.extra_param then
        (false, [FindRefsEvent.setError "Extra search parameter or unquoted string specified."])
      else findRefsAfterScanner q [FindRefsEvent.constructScanner ScanType.kPropertyName]
    | ScanType.kStringValue =>
      if q.extra_param then
        (false, [FindRefsEvent.setError "Extra search parameter or unquoted string specified."])
      else findRefsAfterScanner q [FindRefsEvent.constructScanner ScanType.kStringValue]
    | ScanType.kBadOption => (false, [FindRefsEvent.setError "Invalid search type"])

/-! ### Heap-snapshot builder (src/llscan.h lines 412-533, llscan.cc lines 1701-2189)

`HeapGraphNode.type_` and `HeapGraphEdge.type_` carry the enum value that the
serializer streams out (`kInvalid = -1`).  `GetInstanceType`,
`GetNodeSelfSize` and `GetChildrenCount` decode target memory through the
external layout model; they are modelled as an oracle `SnapInstanceInfo`
per instance giving their observable results: the classified node type, the
self size, the returned child count (`-1` when the heap object or its map
fails to decode) and the edges `GetChildrenCount` appends to `edges_` as a
side effect. -/

structure HeapGraphNode where
  address : Nat
  type_ : Int
  name : Nat
  id : Nat
  size : Nat
  children : Int
  trace_node_id : Nat
deriving DecidableEq, Repr

structure HeapGraphEdge where
  type_ : Int
  name_or_index : Nat
  to_address : Nat
  to_node_id : Nat
deriving DecidableEq, Repr

structure SnapState where
  strings : List String
  nodes : List HeapGraphNode
  edges : List HeapGraphEdge
deriving DecidableEq, Repr

structure SnapInstanceInfo where
  ntype : Int
  size : Nat
  children : Int
  childEdges : List HeapGraphEdge
deriving Repr

/-- Embedding of `HeapSnapshotJSONSerializer::GetStringId` (llscan.cc lines
2012-2024): position of the first occurrence in `strings_` when present,
otherwise the string is appended; the returned id is the 1-based index. -/
def GetStringId (strings : List String) (name : String) : Nat × List String :=
  match strings.indexOf? name with
  | some i => (i + 1, strings)
  | none => (strings.length + 1, strings ++ [name])

/-- Embedding of `HeapSnapshotJSONSerializer::InitialEntry` (llscan.cc lines
1943-1953): the synthetic root node with hard-coded id 1 and the empty name.
`next_id` is received by value in the source, so the `next_id += 2` inside
has no caller-visible effect and the parameter is unused beyond that. -/
def InitialEntry (st : SnapState) (next_id : Nat) : SnapState :=
  let r := GetStringId st.strings ""
  let _ := next_id + 2
  { st with
    strings := r.2,
    nodes := st.nodes ++
      [{ address := 0, type_ := 9, name := r.1, id := 1, size := 0, children := 0,
         trace_node_id := 0 }] }

/-- Embedding of `HeapSnapshotJSONSerializer::AddGCRootsEntry` (llscan.cc
lines 1955-1965): the synthetic "(GC roots)" node with id `next_id`; the
`next_id += 2` acts on a by-value copy. -/
def AddGCRootsEntry (st : SnapState) (next_id : Nat) : SnapState :=
  let r := GetStringId st.strings "(GC roots)"
  { st with
    strings := r.2,
    nodes := st.nodes ++
      [{ address := 0, type_ := 9, name := r.1, id := next_id, size := 0, children := 0,
         trace_node_id := 0 }] }

/-- Instance loop body of `HeapSnapshotJSONSerializer::DataEntry` (llscan.cc
lines 1907-1923) over the instances of one type record: an address already in
`visitedNode` aborts the whole population (`return;`); otherwise a node is
built (consuming an id and appending the edges discovered by
`GetChildrenCount`), and pushed unless its child count is `-1` or its type is
invalid. -/
def dataEntryInstLoop (info : Nat → SnapInstanceInfo) (type_name : String) :
    List Nat → SnapState → Nat → List (Nat × HeapGraphNode) →
      SnapState × Nat × List (Nat × HeapGraphNode) × Bool
  | [], st, next_id, visited => (st, next_id, visited, false)
  | record :: rest, st, next_id, visited =>
    if (assocFind visited record).isSome then (st, next_id, visited, true)
    else
      let i := info record
      let r := GetStringId st.strings type_name
      let node : HeapGraphNode :=
        { address := record, type_ := i.ntype, name := r.1, id := next_id, size := i.size,
          children := i.children, trace_node_id := 0 }
      let st1 : SnapState := { st with strings := r.2, edges := st.edges ++ i.childEdges }
      if i.children = -1 then dataEntryInstLoop info type_name rest st1 (next_id + 2) visited
      else if i.ntype = -1 then dataEntryInstLoop info type_name rest st1 (next_id + 2) visited
      else
        dataEntryInstLoop info type_name rest { st1 with nodes := st1.nodes ++ [node] }
          (next_id + 2) ((record, node) :: visited)

/-- Outer loop of `DataEntry` over `GetMapsToInstances` (llscan.cc lines
1907-1923), propagating the early `return`. -/
def dataEntryRecLoop (info : Nat → SnapInstanceInfo) :
    List (String × List Nat) → SnapState → Nat → List (Nat × HeapGraphNode) →
      SnapState × Nat × List (Nat × HeapGraphNode) × Bool
  | [], st, next_id, visited => (st, next_id, visited, false)
  | (tn, insts) :: rest, st, next_id, visited =>
    match dataEntryInstLoop info tn insts st next_id visited with
    | (st1, nid1, vis1, true) => (st1, nid1, vis1, true)
    | (st1, nid1, vis1, false) => dataEntryRecLoop info rest st1 nid1 vis1

/-- Edge-resolution pass of `DataEntry` (llscan.cc lines 1924-1940): look the
target address up in `visitedNode`; a missing node or an address mismatch
leaves the unresolved sentinel 0, otherwise the edge points at `node.id * 6`. -/
def resolveEdge (visited : List (Nat × HeapGraphNode)) (e : HeapGraphEdge) : HeapGraphEdge :=
  match assocFind visited e.to_address with
  | none => { e with to_node_id := 0 }
  | some n =>
    if n.address ≠ e.to_address then { e with to_node_id := 0 }
    else { e with to_node_id := n.id * 6 }

/-- Embedding of `HeapSnapshotJSONSerializer::DataEntry` (llscan.cc lines
1896-1941).  `next_id` starts at 1 and is passed BY VALUE to `InitialEntry`
and `AddGCRootsEntry`, so it is still 1 when the instance loop starts.  The
early `return` of the instance loop also skips the edge-resolution pass. -/
def DataEntry (instances : List (String × List Nat)) (info : Nat → SnapInstanceInfo) :
    SnapState :=
  let st : SnapState := { strings := [], nodes := [], edges := [] }
  let st := InitialEntry st 1
  let st := AddGCRootsEntry st 1
  match dataEntryRecLoop info instances st 1 [] with
  | (st1, _, _, true) => st1
  | (st1, _, vis1, false) => { st1 with edges := st1.edges.map (resolveEdge vis1) }

/-- Embedding of `HeapSnapshotJSONSerializer::SerializeNode` (llscan.cc lines
2139-2144): a comma before every node but the first, then the six fields
comma-separated followed by `std::endl`. -/
def SerializeNode (node : HeapGraphNode) (initial_node : Bool) : String :=
  (if initial_node then "" else ",") ++
    toString node.type_ ++ "," ++ toString node.name ++ "," ++ toString node.id ++ "," ++
    toString node.size ++ "," ++ toString node.children ++ "," ++
    toString node.trace_node_id ++ "\n"

/-- Embedding of `SerializeNodes` (llscan.cc lines 2130-2137). -/
def SerializeNodes (nodes : List HeapGraphNode) : String :=
  match nodes with
  | [] => ""
  | n :: rest => SerializeNode n true ++ String.join (rest.map (fun m => SerializeNode m false))

/-- Embedding of `SerializeEdge` (llscan.cc lines 2172-2177). -/
def SerializeEdge (edge : HeapGraphEdge) (initial_edge : Bool) : String :=
  (if initial_edge then "" else ",") ++
    toString edge.type_ ++ "," ++ toString edge.name_or_index ++ "," ++
    toString edge.to_node_id ++ "\n"

/-- Embedding of `SerializeEdges` (llscan.cc lines 2163-2170). -/
def SerializeEdges (edges : List HeapGraphEdge) : String :=
  match edges with
  | [] => ""
  | e :: rest => SerializeEdge e true ++ String.join (rest.map (fun f => SerializeEdge f false))

/-- Embedding of `SerializeStrings`/`SerializeString` (llscan.cc lines
2179-2189): the literal `"<dummy>"` followed, for each table entry, by the
quoted string, a comma and `std::endl`. -/
def SerializeStrings (strings : List String) : String :=
  "\"<dummy>\"" ++ String.join (strings.map (fun s => "\"" ++ s ++ "\",\n"))

/-- The fixed meta literal streamed by `SnapshotSerializer` (llscan.cc lines
2052-2116), after expansion of the `JSON_O`/`JSON_A`/`JSON_S` macros. -/
def metaLiteral : String :=
  "\x7b\"node_fields\":[\"type\",\"name\",\"id\",\"self_size\",\"edge_count\"," ++
  "\"trace_node_id\"],\"node_types\":[[\"hidden\",\"array\",\"string\",\"object\"," ++
  "\"code\",\"closure\",\"regexp\",\"number\",\"native\",\"synthetic\"," ++
  "\"concatenated string\",\"sliced string\"],\"string\",\"number\",\"number\"," ++
  "\"number\",\"number\",\"number\"],\"edge_fields\":[\"type\",\"name_or_index\"," ++
  "\"to_node\"],\"edge_types\":[[\"context\",\"element\",\"property\",\"internal\"," ++
  "\"hidden\",\"shortcut\",\"weak\"],\"string_or_number\",\"node\"]," ++
  "\"trace_function_info_fields\":[\"function_id\",\"name\",\"script_name\"," ++
  "\"script_id\",\"line\",\"column\"],\"trace_node_fields\":[\"id\"," ++
  "\"function_info_index\",\"count\",\"size\",\"children\"]," ++
  "\"sample_fields\":[\"timestamp_us\",\"last_assigned_id\"]\x7d"

/-- Embedding of `HeapSnapshotJSONSerializer::SnapshotSerializer` (llscan.cc
lines 2051-2128): the meta object followed by `node_count`, `edge_count` and
`trace_function_count`. -/
def SnapshotSerializer (st : SnapState) : String :=
  "\"meta\":" ++ metaLiteral ++
  ",\"node_count\":" ++ toString st.nodes.length ++
  ",\"edge_count\":" ++ toString st.edges.length ++
  ",\"trace_function_count\":0"

/-- Embedding of `HeapSnapshotJSONSerializer::ImplementSnapshot` (llscan.cc
lines 2028-2049), concatenating exactly the literals the source streams into
`write_` (with `std::endl` as a newline). -/
def ImplementSnapshot (st : SnapState) : String :=
  "\x7b" ++ "\"snapshot\":\x7b" ++ SnapshotSerializer st ++ "\x7d,\n" ++
  "\"nodes\":[" ++ SerializeNodes st.nodes ++ "],\n" ++
  "\"edges\":[" ++ SerializeEdges st.edges ++ "]\n" ++
  "\"trace_function_infos\":[" ++ "]\n" ++
  "\"trace_tree\":[" ++ "]\n" ++
  "\"samples\":[" ++ "],\n" ++
  "\"strings\":[" ++ SerializeStrings st.strings ++ "],\n"

/-! ### A JSON well-formedness check

Modelled from the spec: a "single well-formed JSON document".  The checker is
a deliberately lenient recursive-descent validator for RFC 8259 JSON (it
accepts a superset: any maximal run of number characters is taken as a
number), so rejection witnesses that a string is not well-formed JSON under
any reading. -/

def lbraceChar : Char := Char.ofNat 123

def rbraceChar : Char := Char.ofNat 125

def isJsonWs (c : Char) : Bool := c = ' ' || c = '\n' || c = '\t' || c = '\r'

def skipWs : List Char → List Char
  | [] => []
  | c :: rest => if isJsonWs c then skipWs rest else c :: rest

/-- Characters that may occur in a JSON number (lenient superset). -/
def isNumChar (c : Char) : Bool :=
  c.isDigit || c = '-' || c = '+' || c = '.' || c = 'e' || c = 'E'

def dropNumChars : List Char → List Char
  | [] => []
  | c :: rest => if isNumChar c then dropNumChars rest else c :: rest

/-- Consume the remainder of a JSON string literal (the opening quote already
consumed); a backslash escapes the next character. -/
def jsonStringRest : List Char → Option (List Char)
  | [] => none
  | c :: rest =>
    if c = '"' then some rest
    else if c = '\\' then
      match rest with
      | [] => none
      | _ :: r2 => jsonStringRest r2
    else jsonStringRest rest

def listStartsWith : List Char → List Char → Bool
  | [], _ => true
  | _ :: _, [] => false
  | p :: ps, c :: cs => p = c && listStartsWith ps cs

/-- One-pass JSON grammar walk, structural in `fuel`.  `mode` 0 parses a
value, 1 an object body after the opening brace, 2 the continuation of an
object after a member, 3 an array body after `[`, 4 the continuation of an
array after an element, 5 a single `"key": value` member. -/
def jsonRun : Nat → Nat → List Char → Option (List Char)
  | 0, _, _ => none
  | fuel+1, mode, s =>
    if mode = 0 then
      match skipWs s with
      | [] => none
      | c :: rest =>
        if c = lbraceChar then jsonRun fuel 1 rest
        else if c = '[' then jsonRun fuel 3 rest
        else if c = '"' then jsonStringRest rest
        else if c.isDigit || c = '-' then some (dropNumChars rest)
        else if listStartsWith ['t', 'r', 'u', 'e'] (c :: rest) then some ((c :: rest).drop 4)
        else if listStartsWith ['f', 'a', 'l', 's', 'e'] (c :: rest) then
          some ((c :: rest).drop 5)
        else if listStartsWith ['n', 'u', 'l', 'l'] (c :: rest) then some ((c :: rest).drop 4)
        else none
    else if mode = 1 then
      match skipWs s with
      | [] => none
      | c :: rest =>
        if c = rbraceChar then some rest
        else
          match jsonRun fuel 5 (c :: rest) with
          | none => none
          | some r1 => jsonRun fuel 2 r1
    else if mode = 2 then
      match skipWs s with
      | [] => none
      | c :: rest =>
        if c = rbraceChar then some rest
        else if c = ',' then
          match jsonRun fuel 5 rest with
          | none => none
          | some r1 => jsonRun fuel 2 r1
        else none
    else if mode = 3 then
      match skipWs s with
      | [] => none
      | c :: rest =>
        if c = ']' then some rest
        else
          match jsonRun fuel 0 (c :: rest) with
          | none => none
          | some r1 => jsonRun fuel 4 r1
    else if mode = 4 then
      match skipWs s with
      | [] => none
      | c :: rest =>
        if c = ']' then some rest
        else if c = ',' then
          match jsonRun fuel 0 rest with
          | none => none
          | some r1 => jsonRun fuel 4 r1
        else none
    else if mode = 5 then
      match skipWs s with
      | [] => none
      | c :: rest =>
        if c = '"' then
          match jsonStringRest rest with
          | none => none
          | some r1 =>
            match skipWs r1 with
            | ':' :: r2 => jsonRun fuel 0 r2
            | _ => none
        else none
    else none

/-- Whether a whole string is one well-formed JSON document (possibly with
surrounding whitespace).  The fuel is ample: between any two consecutive
fuel-consuming steps of `jsonRun` at most one step consumes no input
character. -/
def jsonOk (s : String) : Bool :=
  match jsonRun (4 * s.length + 8) 0 s.data with
  | some r => (skipWs r).isEmpty
  | none => false

/-- Empty scan-session state, used to instantiate theorems at concrete inputs. -/
def emptyLLScanState : LLScanState where
  target := 0
  mapstoinstances := []
  detailedmapstoinstances := []
  references_by_value := []
  references_by_property := []
  references_by_string := []
  contexts := []

/-- A session state under target 1 holding one detailed type record. -/
def sampleDetailedState : LLScanState :=
  { emptyLLScanState with
    target := 1,
    detailedmapstoinstances := [("Object: a", (freshRecord "Object: a").AddInstance 64 32)] }

/-- A populated session state under target 1. -/
def samplePopulatedState : LLScanState :=
  { emptyLLScanState with
    target := 1,
    mapstoinstances := [("Object", freshRecord "Object")],
    references_by_value := [(5, [6])],
    references_by_property := [("p", [7])],
    references_by_string := [("s", [8])],
    contexts := [9] }

/-- A two-node cyclic referrer graph (1 and 2 refer to each other), used to
instantiate the traversal theorems on a graph with a cycle. -/
def cycleWorld : RefWorld :=
  { g := [(1, [2]), (2, [1])], ctxs := [], expandable := fun _ => true }

/-- The event trace of the traversal of `cycleWorld` seeded at value 1. -/
def cycleTrace : List RefEvent :=
  [RefEvent.printRef 2, RefEvent.expand 2, RefEvent.printRef 1, RefEvent.expand 1,
   RefEvent.printRef 2, RefEvent.marker 2]

/-! ## Theorems -/

set_option maxRecDepth 100000

theorem AddInstance_mem (t : TypeRecord) (a s : Nat) : a ∈ (t.AddInstance a s).instances := by
  by_cases h : a ∈ t.instances <;> simp [TypeRecord.AddInstance, h]

theorem AddInstance_second_call_noop (t : TypeRecord) (a s₁ s₂ : Nat) :
    (t.AddInstance a s₁).AddInstance a s₂ = t.AddInstance a s₁ := by
  by_cases h : a ∈ t.instances <;> simp [TypeRecord.AddInstance, h]

theorem applyCalls_inv (calls : List (Nat × Nat)) :
    ∀ (t : TypeRecord) (X : Nat),
      t.instances.Nodup →
      t.instance_count = u64 t.instances.length →
      t.total_instance_size = u64 X →
      (applyCalls t calls).instances.Nodup ∧
      (applyCalls t calls).instance_count = u64 (applyCalls t calls).instances.length ∧
      (applyCalls t calls).total_instance_size = u64 (X + newSizeSum t.instances calls) := by
  induction calls with
  | nil =>
    intro t X h1 h2 h3
    exact ⟨h1, h2, by simpa [applyCalls, newSizeSum] using h3⟩
  | cons c rest ih =>
    intro t X h1 h2 h3
    have hstep : applyCalls t (c :: rest) = applyCalls (t.AddInstance c.1 c.2) rest := rfl
    by_cases h : c.1 ∈ t.instances
    · have hA : t.AddInstance c.1 c.2 = t := by simp [TypeRecord.AddInstance, h]
      have hs : newSizeSum t.instances (c :: rest) = newSizeSum t.instances rest := by
        simp [newSizeSum, h]
      rw [hstep, hA, hs]
      exact ih t X h1 h2 h3
    · have hA : t.AddInstance c.1 c.2 =
          { t with
            instances := c.1 :: t.instances,
            instance_count := u64 (t.instance_count + 1),
            total_instance_size := u64 (t.total_instance_size + c.2) } := by
        simp [TypeRecord.AddInstance, h]
      have hnd : (c.1 :: t.instances).Nodup := List.nodup_cons.2 ⟨h, h1⟩
      have hcnt : u64 (t.instance_count + 1) = u64 ((c.1 :: t.instances).length) := by
        rw [h2]; simp only [u64, List.length_cons]; rw [Nat.mod_add_mod]
      have htot : u64 (t.total_instance_size + c.2) = u64 (X + c.2) := by
        rw [h3]; simp only [u64]; rw [Nat.mod_add_mod]
      have hs : newSizeSum t.instances (c :: rest) =
          c.2 + newSizeSum (c.1 :: t.instances) rest := by
        simp [newSizeSum, h]
      rw [hstep, hA]
      have hrec := ih { t with
            instances := c.1 :: t.instances,
            instance_count := u64 (t.instance_count + 1),
            total_instance_size := u64 (t.total_instance_size + c.2) }
          (X + c.2) hnd (by simpa using hcnt) (by simpa using htot)
      refine ⟨hrec.1, hrec.2.1, ?_⟩
      have h22 : (applyCalls { t with
            instances := c.1 :: t.instances,
            instance_count := u64 (t.instance_count + 1),
            total_instance_size := u64 (t.total_instance_size + c.2) } rest).total_instance_size =
          u64 ((X + c.2) + newSizeSum (c.1 :: t.instances) rest) := hrec.2.2
      rw [h22, hs]
      congr 1
      omega

theorem applyCalls_length_le (calls : List (Nat × Nat)) :
    ∀ t : TypeRecord, (applyCalls t calls).instances.length ≤ t.instances.length + calls.length := by
  induction calls with
  | nil => intro t; simp [applyCalls]
  | cons c rest ih =>
    intro t
    have h1 : applyCalls t (c :: rest) = applyCalls (t.AddInstance c.1 c.2) rest := rfl
    have h2 := ih (t.AddInstance c.1 c.2)
    have h3 : (t.AddInstance c.1 c.2).instances.length ≤ t.instances.length + 1 := by
      by_cases hm : c.1 ∈ t.instances <;> simp [TypeRecord.AddInstance, hm]
    rw [h1]
    simp only [List.length_cons]
    omega

/-- C1: a second `AddInstance` with an already-recorded address changes
nothing — the whole record is unchanged, so across the two calls of a fresh
address the count rises by exactly one — and after any call sequence on a
fresh record the set is duplicate-free, `instance_count` equals the
cardinality of `instances` (exactly so below the `uint64_t` bound) and
`total_instance_size` is the sum of the sizes recorded at each address's
first insertion. -/
theorem C1_addInstance_idempotent_and_invariant :
    (∀ (t : TypeRecord) (a s₁ s₂ : Nat),
      (t.AddInstance a s₁).AddInstance a s₂ = t.AddInstance a s₁) ∧
    (∀ (t : TypeRecord) (a s₁ s₂ : Nat), a ∉ t.instances → t.instance_count + 1 < U64SIZE →
      ((t.AddInstance a s₁).AddInstance a s₂).instance_count = t.instance_count + 1) ∧
    (∀ (name : String) (calls : List (Nat × Nat)),
      (applyCalls (freshRecord name) calls).instances.Nodup ∧
      (applyCalls (freshRecord name) calls).instance_count =
        u64 ((applyCalls (freshRecord name) calls).instances.length) ∧
      (applyCalls (freshRecord name) calls).total_instance_size = u64 (newSizeSum [] calls) ∧
      (calls.length < U64SIZE →
        (applyCalls (freshRecord name) calls).instance_count =
          (applyCalls (freshRecord name) calls).instances.length)) := by
  refine ⟨AddInstance_second_call_noop, ?_, ?_⟩
  · intro t a s₁ s₂ hmem hlt
    rw [AddInstance_second_call_noop]
    have : (t.AddInstance a s₁).instance_count = u64 (t.instance_count + 1) := by
      simp [TypeRecord.AddInstance, hmem]
    rw [this, u64, Nat.mod_eq_of_lt hlt]
  · intro name calls
    have h := applyCalls_inv calls (freshRecord name) 0 (by simp [freshRecord])
      (by simp [freshRecord, u64, U64SIZE]) (by simp [freshRecord, u64, U64SIZE])
    refine ⟨h.1, h.2.1, by simpa using h.2.2, ?_⟩
    intro hlen
    have hle := applyCalls_length_le calls (freshRecord name)
    have hle2 : (applyCalls (freshRecord name) calls).instances.length ≤ calls.length := by
      simpa [freshRecord] using hle
    have hlt : (applyCalls (freshRecord name) calls).instances.length < U64SIZE := by omega
    rw [h.2.1]
    simp [u64, Nat.mod_eq_of_lt hlt]

theorem C1_witness :
    ((16 : Nat) ∉ (freshRecord "Object").instances) ∧
    ((freshRecord "Object").instance_count + 1 < U64SIZE) ∧
    (((freshRecord "Object").AddInstance 16 24).AddInstance 16 8).instance_count =
      (freshRecord "Object").instance_count + 1 ∧
    (([(16, 24), (16, 8)] : List (Nat × Nat)).length < U64SIZE) ∧
    (applyCalls (freshRecord "Object") [(16, 24), (16, 8)]).instance_count =
      (applyCalls (freshRecord "Object") [(16, 24), (16, 8)]).instances.length :=
  ⟨by decide, by decide,
   C1_addInstance_idempotent_and_invariant.2.1 (freshRecord "Object") 16 24 8
     (by decide) (by decide),
   by decide,
   (C1_addInstance_idempotent_and_invariant.2.2 "Object" [(16, 24), (16, 8)]).2.2.2 (by decide)⟩

theorem assocFind_assocSet_self {κ β : Type} [DecidableEq κ] (m : List (κ × β)) (k : κ)
    (v : β) : assocFind (assocSet m k v) k = some v := by
  induction m with
  | nil => simp [assocSet, assocFind]
  | cons e rest ih =>
    by_cases h : e.fst = k
    · simp [assocSet, assocFind, h]
    · simp [assocSet, assocFind, h, ih]

theorem assocFind_assocSet_ne {κ β : Type} [DecidableEq κ] (m : List (κ × β)) (k k2 : κ)
    (v : β) (h : k ≠ k2) : assocFind (assocSet m k v) k2 = assocFind m k2 := by
  induction m with
  | nil => simp [assocSet, assocFind, h]
  | cons e rest ih =>
    by_cases he : e.fst = k
    · simp [assocSet, assocFind, he, h, Ne.symm h]
    · by_cases he2 : e.fst = k2 <;> simp [assocSet, assocFind, he, he2, ih, Ne.symm h]

theorem assocSet_ne_nil {κ β : Type} [DecidableEq κ] (m : List (κ × β)) (k : κ) (v : β) :
    assocSet m k v ≠ [] := by
  cases m with
  | nil => simp [assocSet]
  | cons e rest => by_cases h : e.fst = k <;> simp [assocSet, h]

theorem countRef_appendRef_self {κ : Type} [DecidableEq κ] (m : List (κ × List Nat)) (k : κ)
    (src : Nat) : countRef (appendRef m k src) k src = countRef m k src + 1 := by
  unfold appendRef countRef
  cases hf : assocFind m k with
  | none => simp [hf, assocFind_assocSet_self]
  | some v => simp [hf, assocFind_assocSet_self, List.count_append]

theorem countRef_appendRef_ne {κ : Type} [DecidableEq κ] (m : List (κ × List Nat)) (k k2 : κ)
    (src src2 : Nat) (h : k ≠ k2) :
    countRef (appendRef m k src) k2 src2 = countRef m k2 src2 := by
  unfold appendRef countRef
  cases hf : assocFind m k with
  | none => simp [hf, assocFind_assocSet_ne _ _ _ _ h]
  | some v => simp [hf, assocFind_assocSet_ne _ _ _ _ h]

theorem countRef_appendRef {κ : Type} [DecidableEq κ] (m : List (κ × List Nat)) (v k : κ)
    (src : Nat) :
    countRef (appendRef m v src) k src = countRef m k src + (if v = k then 1 else 0) := by
  by_cases h : v = k
  · subst h; simp [countRef_appendRef_self]
  · simp [countRef_appendRef_ne m v k src src h, h]

theorem mem_cons_of_ne {α : Type} {k v : α} (saved : List α) (hk : v ≠ k) :
    (k ∈ v :: saved) ↔ k ∈ saved := by
  rw [List.mem_cons]
  constructor
  · rintro (he | hm)
    · exact absurd he.symm hk
    · exact hm
  · exact Or.inr

theorem ReferenceScanner_elems_inv (src : Nat) (elems : List (Option Nat)) :
    ∀ (m : List (Nat × List Nat)) (saved : List Nat) (C k : Nat),
      countRef m k src ≤ C + (if k ∈ saved then 1 else 0) →
      countRef (ReferenceScanner.ScanRefsElems src elems m saved).1 k src ≤
        C + (if k ∈ (ReferenceScanner.ScanRefsElems src elems m saved).2 then 1 else 0) := by
  induction elems with
  | nil => intro m saved C k h; simpa [ReferenceScanner.ScanRefsElems] using h
  | cons e rest ih =>
    intro m saved C k h
    cases e with
    | none => simpa [ReferenceScanner.ScanRefsElems] using h
    | some v =>
      by_cases hv : v ∈ saved
      · simp only [ReferenceScanner.ScanRefsElems, if_pos hv]
        exact ih m saved C k h
      · simp only [ReferenceScanner.ScanRefsElems, if_neg hv]
        apply ih
        rw [countRef_appendRef]
        by_cases hk : v = k
        · subst hk
          rw [if_pos rfl, if_pos (List.mem_cons_self v saved)]
          rw [if_neg hv, Nat.add_zero] at h
          omega
        · rw [if_neg hk, Nat.add_zero]
          by_cases hks : k ∈ saved
          · rw [if_pos ((mem_cons_of_ne saved hk).mpr hks)]
            rw [if_pos hks] at h
            exact h
          · rw [if_neg (fun hx => hks ((mem_cons_of_ne saved hk).mp hx))]
            rw [if_neg hks] at h
            exact h

theorem ReferenceScanner_entries_inv (src : Nat) (es : List Nat) :
    ∀ (m : List (Nat × List Nat)) (saved : List Nat) (C k : Nat),
      countRef m k src ≤ C + (if k ∈ saved then 1 else 0) →
      countRef (ReferenceScanner.ScanRefsEntries src es m saved).1 k src ≤
        C + (if k ∈ (ReferenceScanner.ScanRefsEntries src es m saved).2 then 1 else 0) := by
  induction es with
  | nil => intro m saved C k h; simpa [ReferenceScanner.ScanRefsEntries] using h
  | cons v rest ih =>
    intro m saved C k h
    by_cases hv : v ∈ saved
    · simp only [ReferenceScanner.ScanRefsEntries, if_pos hv]
      exact ih m saved C k h
    · simp only [ReferenceScanner.ScanRefsEntries, if_neg hv]
      apply ih
      rw [countRef_appendRef]
      by_cases hk : v = k
      · subst hk
        rw [if_pos rfl, if_pos (List.mem_cons_self v saved)]
        rw [if_neg hv, Nat.add_zero] at h
        omega
      · rw [if_neg hk, Nat.add_zero]
        by_cases hks : k ∈ saved
        · rw [if_pos ((mem_cons_of_ne saved hk).mpr hks)]
          rw [if_pos hks] at h
          exact h
        · rw [if_neg (fun hx => hks ((mem_cons_of_ne saved hk).mp hx))]
          rw [if_neg hks] at h
          exact h

theorem StringScanner_slots_inv (src : Nat) (slots : List (Option String)) :
    ∀ (m : List (String × List Nat)) (saved : List String) (C : Nat) (k : String),
      countRef m k src ≤ C + (if k ∈ saved then 1 else 0) →
      countRef (StringScanner.ScanRefsSlots src slots m saved).1 k src ≤
        C + (if k ∈ (StringScanner.ScanRefsSlots src slots m saved).2 then 1 else 0) := by
  induction slots with
  | nil => intro m saved C k h; simpa [StringScanner.ScanRefsSlots] using h
  | cons e rest ih =>
    intro m saved C k h
    cases e with
    | none =>
      simp only [StringScanner.ScanRefsSlots]
      exact ih m saved C k h
    | some v =>
      by_cases hv : v ∈ saved
      · simp only [StringScanner.ScanRefsSlots, if_pos hv]
        exact ih m saved C k h
      · simp only [StringScanner.ScanRefsSlots, if_neg hv]
        apply ih
        rw [countRef_appendRef]
        by_cases hk : v = k
        · subst hk
          rw [if_pos rfl, if_pos (List.mem_cons_self v saved)]
          rw [if_neg hv, Nat.add_zero] at h
          omega
        · rw [if_neg hk, Nat.add_zero]
          by_cases hks : k ∈ saved
          · rw [if_pos ((mem_cons_of_ne saved hk).mpr hks)]
            rw [if_pos hks] at h
            exact h
          · rw [if_neg (fun hx => hks ((mem_cons_of_ne saved hk).mp hx))]
            rw [if_neg hks] at h
            exact h

theorem propScanFold_count (src : Nat) (es : List (Option String)) :
    ∀ (m : List (String × List Nat)) (k : String),
      countRef (es.foldl (fun acc k? => match k? with
        | none => acc
        | some key => appendRef acc key src) m) k src =
        countRef m k src + es.count (some k) := by
  induction es with
  | nil => intro m k; simp
  | cons e rest ih =>
    intro m k
    cases e with
    | none =>
      simp only [List.foldl_cons]
      rw [ih]
      simp [List.count_cons]
    | some v =>
      simp only [List.foldl_cons]
      rw [ih, countRef_appendRef]
      by_cases hk : v = k <;> simp [List.count_cons, hk] <;> omega

/-- C6 (amended): the by-value and by-string object scanners append the source
address at most once per key per `ScanRefs` call, enforced by their in-scope
`already_saved` sets; the by-property scanner has no such set and appends the
source once per decodable entry, so it records the same (source, name) pair
once per occurrence of the name in the entry list — twice when a property
name repeats. -/
theorem C6_scanners_per_call_deduplication :
    (∀ (src : Nat) (elems : List (Option Nat)) (entries : Option (List Nat))
        (m : List (Nat × List Nat)) (k : Nat),
      countRef (ReferenceScanner.ScanRefs src elems entries m) k src ≤ countRef m k src + 1) ∧
    (∀ (src : Nat) (elems : List (Option String)) (entries : Option (List (Option String)))
        (m : List (String × List Nat)) (k : String),
      countRef (StringScanner.ScanRefs src elems entries m) k src ≤ countRef m k src + 1) ∧
    (∀ (src : Nat) (es : List (Option String)) (m : List (String × List Nat)) (k : String),
      countRef (PropertyScanner.ScanRefs src (some es) m) k src =
        countRef m k src + es.count (some k)) := by
  refine ⟨?_, ?_, ?_⟩
  · intro src elems entries m k
    have h1 := ReferenceScanner_elems_inv src elems m [] (countRef m k src) k (by simp)
    cases entries with
    | none =>
      simp only [ReferenceScanner.ScanRefs]
      by_cases hk : k ∈ (ReferenceScanner.ScanRefsElems src elems m []).2
      · rw [if_pos hk] at h1; omega
      · rw [if_neg hk] at h1; omega
    | some es =>
      simp only [ReferenceScanner.ScanRefs]
      have h2 := ReferenceScanner_entries_inv src es
        (ReferenceScanner.ScanRefsElems src elems m []).1
        (ReferenceScanner.ScanRefsElems src elems m []).2 (countRef m k src) k h1
      by_cases hk : k ∈ (ReferenceScanner.ScanRefsEntries src es
          (ReferenceScanner.ScanRefsElems src elems m []).1
          (ReferenceScanner.ScanRefsElems src elems m []).2).2
      · rw [if_pos hk] at h2; omega
      · rw [if_neg hk] at h2; omega
  · intro src elems entries m k
    have h1 := StringScanner_slots_inv src elems m [] (countRef m k src) k (by simp)
    cases entries with
    | none =>
      simp only [StringScanner.ScanRefs]
      by_cases hk : k ∈ (StringScanner.ScanRefsSlots src elems m []).2
      · rw [if_pos hk] at h1; omega
      · rw [if_neg hk] at h1; omega
    | some es =>
      simp only [StringScanner.ScanRefs]
      have h2 := StringScanner_slots_inv src es
        (StringScanner.ScanRefsSlots src elems m []).1
        (StringScanner.ScanRefsSlots src elems m []).2 (countRef m k src) k h1
      by_cases hk : k ∈ (StringScanner.ScanRefsSlots src es
          (StringScanner.ScanRefsSlots src elems m []).1
          (StringScanner.ScanRefsSlots src elems m []).2).2
      · rw [if_pos hk] at h2; omega
      · rw [if_neg hk] at h2; omega
  · intro src es m k
    simp only [PropertyScanner.ScanRefs]
    exact propScanFold_count src es m k

/-- C6 counterexample: one `PropertyScanner::ScanRefs` call on an object whose
entry list holds the property name "a" in two slots appends the same
(source, name) pair twice — the vector under "a" ends as `[4096, 4096]` —
refuting the claim that all three scanners avoid duplicate insertion per
source scan. -/
theorem C6_counterexample :
    PropertyScanner.ScanRefs 4096 (some [some "a", some "a"]) [] = [("a", [4096, 4096])] ∧
    countRef (PropertyScanner.ScanRefs 4096 (some [some "a", some "a"]) []) "a" 4096 = 2 := by
  constructor <;> decide

/-- C8: looking a key up in any of the three reference indices creates and
stores a fresh empty vector when the key is absent and returns it, so
afterwards the key is present with zero referrers and the loaded predicate
(map non-empty) holds; through the lookup interface, a key with zero
referrers is indistinguishable from a key never queried (both return the
empty vector). -/
theorem C8_reference_lookup_create_on_read :
    (∀ (s : LLScanState) (a : Nat), assocFind s.references_by_value a = none →
      (GetReferencesByValue s a).1 = [] ∧
      assocFind (GetReferencesByValue s a).2.references_by_value a = some [] ∧
      AreReferencesByValueLoaded (GetReferencesByValue s a).2 = true) ∧
    (∀ (s1 s2 : LLScanState) (a : Nat), assocFind s1.references_by_value a = some [] →
      assocFind s2.references_by_value a = none →
      (GetReferencesByValue s1 a).1 = (GetReferencesByValue s2 a).1) ∧
    (∀ (s : LLScanState) (p : String), assocFind s.references_by_property p = none →
      (GetReferencesByProperty s p).1 = [] ∧
      assocFind (GetReferencesByProperty s p).2.references_by_property p = some [] ∧
      AreReferencesByPropertyLoaded (GetReferencesByProperty s p).2 = true) ∧
    (∀ (s1 s2 : LLScanState) (p : String), assocFind s1.references_by_property p = some [] →
      assocFind s2.references_by_property p = none →
      (GetReferencesByProperty s1 p).1 = (GetReferencesByProperty s2 p).1) ∧
    (∀ (s : LLScanState) (v : String), assocFind s.references_by_string v = none →
      (GetReferencesByString s v).1 = [] ∧
      assocFind (GetReferencesByString s v).2.references_by_string v = some [] ∧
      AreReferencesByStringLoaded (GetReferencesByString s v).2 = true) ∧
    (∀ (s1 s2 : LLScanState) (v : String), assocFind s1.references_by_string v = some [] →
      assocFind s2.references_by_string v = none →
      (GetReferencesByString s1 v).1 = (GetReferencesByString s2 v).1) := by
  refine ⟨?_, ?_, ?_, ?_, ?_, ?_⟩
  · intro s a h
    refine ⟨by simp [GetReferencesByValue, h], ?_, ?_⟩
    · simp [GetReferencesByValue, h, assocFind_assocSet_self]
    · simp only [GetReferencesByValue, h, AreReferencesByValueLoaded]
      simpa using List.length_pos.mpr (assocSet_ne_nil s.references_by_value a [])
  · intro s1 s2 a h1 h2
    simp [GetReferencesByValue, h1, h2]
  · intro s p h
    refine ⟨by simp [GetReferencesByProperty, h], ?_, ?_⟩
    · simp [GetReferencesByProperty, h, assocFind_assocSet_self]
    · simp only [GetReferencesByProperty, h, AreReferencesByPropertyLoaded]
      simpa using List.length_pos.mpr (assocSet_ne_nil s.references_by_property p [])
  · intro s1 s2 p h1 h2
    simp [GetReferencesByProperty, h1, h2]
  · intro s v h
    refine ⟨by simp [GetReferencesByString, h], ?_, ?_⟩
    · simp [GetReferencesByString, h, assocFind_assocSet_self]
    · simp only [GetReferencesByString, h, AreReferencesByStringLoaded]
      simpa using List.length_pos.mpr (assocSet_ne_nil s.references_by_string v [])
  · intro s1 s2 v h1 h2
    simp [GetReferencesByString, h1, h2]

theorem C8_witness :
    (assocFind emptyLLScanState.references_by_value 4096 = none) ∧
    (GetReferencesByValue emptyLLScanState 4096).1 = [] ∧
    assocFind (GetReferencesByValue emptyLLScanState 4096).2.references_by_value 4096 =
      some [] ∧
    AreReferencesByValueLoaded (GetReferencesByValue emptyLLScanState 4096).2 = true :=
  ⟨by decide, C8_reference_lookup_create_on_read.1 emptyLLScanState 4096 (by decide)⟩

/-- C7 (amended): on a target change `ScanHeapForObjects` empties the coarse
type-record map and all three reference indices before the populating scan
runs, and records the new target — but it does not clear the detailed
type-record map, whose old entries survive into the new scan. -/
theorem C7_target_change_clears (s : LLScanState) (t : Nat)
    (pop : LLScanState → LLScanState) (h : s.target ≠ t) :
    ScanHeapForObjects s t pop = pop (ScanHeapPrepare s t) ∧
    (ScanHeapPrepare s t).mapstoinstances = [] ∧
    (ScanHeapPrepare s t).references_by_value = [] ∧
    (ScanHeapPrepare s t).references_by_property = [] ∧
    (ScanHeapPrepare s t).references_by_string = [] ∧
    (ScanHeapPrepare s t).detailedmapstoinstances = s.detailedmapstoinstances ∧
    (ScanHeapPrepare s t).contexts = s.contexts ∧
    (ScanHeapPrepare s t).target = t := by
  refine ⟨?_, ?_⟩
  · simp [ScanHeapForObjects, ScanHeapPrepare, ClearMapsToInstances, ClearReferences, h]
  · simp [ScanHeapPrepare, ClearMapsToInstances, ClearReferences, h]

/-- C7 counterexample: a target change with a scan that finds nothing leaves
the old detailed type-record entry in place — the detailed map is not
emptied, refuting "all histogram state ... fully emptied". -/
theorem C7_counterexample :
    (ScanHeapForObjects sampleDetailedState 2 (fun s => s)).detailedmapstoinstances =
      sampleDetailedState.detailedmapstoinstances ∧
    sampleDetailedState.detailedmapstoinstances ≠ ([] : List (String × TypeRecord)) := by
  constructor <;> decide

theorem C7_witness :
    (samplePopulatedState.target ≠ 2) ∧
    ScanHeapForObjects samplePopulatedState 2 (fun s => s) =
      ScanHeapPrepare samplePopulatedState 2 ∧
    (ScanHeapPrepare samplePopulatedState 2).mapstoinstances = [] ∧
    (ScanHeapPrepare samplePopulatedState 2).references_by_value = [] :=
  ⟨by decide,
   (C7_target_change_clears samplePopulatedState 2 (fun s => s) (by decide)).1,
   (C7_target_change_clears samplePopulatedState 2 (fun s => s) (by decide)).2.1,
   (C7_target_change_clears samplePopulatedState 2 (fun s => s) (by decide)).2.2.1⟩

/-- C10: no session operation removes addresses from the context set — a
target change (`ScanHeapPrepare`, the clearing half of `ScanHeapForObjects`)
leaves the context set exactly unchanged, every modelled mutation preserves
membership, `InsertOnContexts` puts its word in the set, and hence any
sequence of operations keeps every previously inserted address. -/
theorem C10_contexts_never_removed :
    (∀ (s : LLScanState) (t : Nat), (ScanHeapPrepare s t).contexts = s.contexts) ∧
    (∀ (s : LLScanState) (op : LLScanOp) (a : Nat),
      a ∈ s.contexts → a ∈ (applyOp s op).contexts) ∧
    (∀ (s : LLScanState) (w : Nat), w ∈ (InsertOnContexts s w).contexts) ∧
    (∀ (ops : List LLScanOp) (s : LLScanState) (a : Nat),
      a ∈ s.contexts → a ∈ (ops.foldl applyOp s).contexts) := by
  have hprep : ∀ (s : LLScanState) (t : Nat), (ScanHeapPrepare s t).contexts = s.contexts := by
    intro s t
    by_cases h : s.target ≠ t <;>
      simp [ScanHeapPrepare, ClearMapsToInstances, ClearReferences, h]
  have hop : ∀ (s : LLScanState) (op : LLScanOp) (a : Nat),
      a ∈ s.contexts → a ∈ (applyOp s op).contexts := by
    intro s op a ha
    cases op with
    | scanPrepare t => rw [applyOp, hprep]; exact ha
    | clearMaps => simpa [applyOp, ClearMapsToInstances] using ha
    | clearRefs => simpa [applyOp, ClearReferences] using ha
    | insertOnContexts w =>
      by_cases h : w ∈ s.contexts <;> simp [applyOp, InsertOnContexts, h, ha]
    | insertOnMaps w tn sz => simpa [applyOp, InsertOnMapsToInstances] using ha
    | insertOnDetailedMaps w k sz => simpa [applyOp, InsertOnDetailedMapsToInstances] using ha
    | getByValue x =>
      cases hf : assocFind s.references_by_value x <;>
        simpa [applyOp, GetReferencesByValue, hf] using ha
    | getByProperty p =>
      cases hf : assocFind s.references_by_property p <;>
        simpa [applyOp, GetReferencesByProperty, hf] using ha
    | getByString v =>
      cases hf : assocFind s.references_by_string v <;>
        simpa [applyOp, GetReferencesByString, hf] using ha
    | pushByValue k src => simpa [applyOp] using ha
    | pushByProperty k src => simpa [applyOp] using ha
    | pushByString k src => simpa [applyOp] using ha
  refine ⟨hprep, hop, ?_, ?_⟩
  · intro s w
    by_cases h : w ∈ s.contexts <;> simp [InsertOnContexts, h]
  · intro ops
    induction ops with
    | nil => intro s a ha; simpa using ha
    | cons op rest ih =>
      intro s a ha
      exact ih (applyOp s op) a (hop s op a ha)

theorem C10_witness :
    ((9 : Nat) ∈ samplePopulatedState.contexts) ∧
    (ScanHeapPrepare samplePopulatedState 2).contexts = samplePopulatedState.contexts ∧
    (9 : Nat) ∈
      (([LLScanOp.scanPrepare 2, LLScanOp.clearMaps, LLScanOp.clearRefs,
         LLScanOp.getByValue 5, LLScanOp.insertOnContexts 11]).foldl applyOp
        samplePopulatedState).contexts ∧
    (11 : Nat) ∈ (InsertOnContexts samplePopulatedState 11).contexts :=
  ⟨by decide,
   C10_contexts_never_removed.1 samplePopulatedState 2,
   C10_contexts_never_removed.2.2.2
     [LLScanOp.scanPrepare 2, LLScanOp.clearMaps, LLScanOp.clearRefs,
      LLScanOp.getByValue 5, LLScanOp.insertOnContexts 11] samplePopulatedState 9 (by decide),
   C10_contexts_never_removed.2.2.1 samplePopulatedState 11⟩

/-- C5: the pagination state resets to page 0 whenever the query (type name
or output limit) changes, otherwise advances by exactly one page, wrapping to
page 0 once `(page+1)*limit` passes the total; with limit 10 and 25 entries,
four successive identical queries show instances 1-10, 11-20, 21-25 and then
1-10 again. -/
theorem C5_pagination_reset_advance_wrap :
    (∀ (p : cmd_pagination_t) (full_cmd : String) (lim n : Int),
      (full_cmd ≠ p.command ∨ lim ≠ p.output_limit) →
      (updatePagination p full_cmd lim n).current_page = 0 ∧
      (updatePagination p full_cmd lim n).total_entries = n ∧
      (updatePagination p full_cmd lim n).output_limit = lim) ∧
    (∀ (p : cmd_pagination_t) (full_cmd : String) (lim n : Int),
      full_cmd = p.command → lim = p.output_limit →
      0 < p.output_limit → (p.current_page + 1) * p.output_limit ≤ p.total_entries →
      (updatePagination p full_cmd lim n).current_page = p.current_page + 1) ∧
    (∀ (p : cmd_pagination_t) (full_cmd : String) (lim n : Int),
      full_cmd = p.command → lim = p.output_limit →
      (p.output_limit ≤ 0 ∨ (p.current_page + 1) * p.output_limit > p.total_entries) →
      (updatePagination p full_cmd lim n).current_page = 0) ∧
    (pageBounds (updatePagination {} "x" 10 25) 10 = (1, 10) ∧
     pageBounds (updatePagination (updatePagination {} "x" 10 25) "x" 10 25) 10 = (11, 20) ∧
     pageBounds (updatePagination (updatePagination (updatePagination {} "x" 10 25)
       "x" 10 25) "x" 10 25) 10 = (21, 25) ∧
     pageBounds (updatePagination (updatePagination (updatePagination (updatePagination {}
       "x" 10 25) "x" 10 25) "x" 10 25) "x" 10 25) 10 = (1, 10)) := by
  refine ⟨?_, ?_, ?_, by decide⟩
  · intro p full_cmd lim n h
    rw [updatePagination, if_pos h]
    exact ⟨rfl, rfl, rfl⟩
  · intro p full_cmd lim n h1 h2 h3 h4
    rw [updatePagination, if_neg (by simp [h1, h2]), if_neg (by omega)]
  · intro p full_cmd lim n h1 h2 h3
    rw [updatePagination, if_neg (by simp [h1, h2]), if_pos (by omega)]

theorem C5_witness :
    (("y" : String) ≠ (updatePagination {} "x" 10 25).command ∨ (10 : Int) ≠
      (updatePagination {} "x" 10 25).output_limit) ∧
    (updatePagination (updatePagination {} "x" 10 25) "y" 10 30).current_page = 0 ∧
    (("x" : String) = (updatePagination {} "x" 10 25).command) ∧
    ((10 : Int) = (updatePagination {} "x" 10 25).output_limit) ∧
    (updatePagination (updatePagination {} "x" 10 25) "x" 10 25).current_page =
      (updatePagination {} "x" 10 25).current_page + 1 ∧
    pageBounds (updatePagination {} "x" 10 25) 10 = (1, 10) :=
  ⟨by decide,
   ((C5_pagination_reset_advance_wrap.1 (updatePagination {} "x" 10 25) "y" 10 30)
     (by decide)).1,
   by decide, by decide,
   C5_pagination_reset_advance_wrap.2.1 (updatePagination {} "x" 10 25) "x" 10 25
     (by decide) (by decide) (by decide) (by decide),
   C5_pagination_reset_advance_wrap.2.2.2.1⟩

/-- C9: a findrefs by-value query whose expression evaluates to an SMI-tagged
value fails with "Search value is an SMI." before any heap scan, before any
reference indexing, and before any scanner is constructed. -/
theorem C9_smi_search_rejected (q : FindRefsQuery) (h1 : q.cmd_present = true)
    (h2 : q.target_valid = true) (h3 : q.param_present = true)
    (h4 : q.scan_type = ScanType.kFieldValue) (h5 : q.expr_eval_fails = false)
    (h6 : q.expr_is_smi = true) :
    FindReferencesDoExecute q =
      (false, [FindRefsEvent.evaluateExpression,
               FindRefsEvent.setError "Search value is an SMI."]) ∧
    FindRefsEvent.scanHeapForObjects ∉ (FindReferencesDoExecute q).2 ∧
    (∀ k, FindRefsEvent.constructScanner k ∉ (FindReferencesDoExecute q).2) ∧
    FindRefsEvent.scanForReferences ∉ (FindReferencesDoExecute q).2 := by
  have he : FindReferencesDoExecute q =
      (false, [FindRefsEvent.evaluateExpression,
               FindRefsEvent.setError "Search value is an SMI."]) := by
    simp [FindReferencesDoExecute, h1, h2, h3, h4, h5, h6]
  refine ⟨he, ?_, ?_, ?_⟩
  · simp [he]
  · intro k; simp [he]
  · simp [he]

theorem C9_witness :
    FindReferencesDoExecute
      { cmd_present := true, target_valid := true, param_present := true,
        scan_type := ScanType.kFieldValue, recursive_scan := false,
        expr_eval_fails := false, expr_is_smi := true, extra_param := false,
        references_loaded := false, recursive_references_loaded := false } =
      (false, [FindRefsEvent.evaluateExpression,
               FindRefsEvent.setError "Search value is an SMI."]) ∧
    FindRefsEvent.scanHeapForObjects ∉
      (FindReferencesDoExecute
        { cmd_present := true, target_valid := true, param_present := true,
          scan_type := ScanType.kFieldValue, recursive_scan := false,
          expr_eval_fails := false, expr_is_smi := true, extra_param := false,
          references_loaded := false, recursive_references_loaded := false }).2 :=
  ⟨(C9_smi_search_rejected _ rfl rfl rfl rfl rfl rfl).1,
   (C9_smi_search_rejected _ rfl rfl rfl rfl rfl rfl).2.1⟩

theorem expandsOf_append (t1 t2 : List RefEvent) :
    expandsOf (t1 ++ t2) = expandsOf t1 ++ expandsOf t2 := by
  induction t1 with
  | nil => simp [expandsOf]
  | cons e rest ih => cases e <;> simp [expandsOf, ih]

theorem loop_visited_of_rec (w : RefWorld) (fuel : Nat)
    (hA : ∀ vis a t v, printRecursiveReferences w fuel vis a = some (t, v) →
      v = vis ++ expandsOf t ∧ (vis.Nodup → v.Nodup)) :
    ∀ l vis t v, printReferencesLoop w fuel l vis = some (t, v) →
      v = vis ++ expandsOf t ∧ (vis.Nodup → v.Nodup) := by
  intro l
  induction l with
  | nil =>
    intro vis t v h
    simp only [printReferencesLoop, Option.some.injEq, Prod.mk.injEq] at h
    obtain ⟨ht, hv⟩ := h
    subst ht
    subst hv
    simp [expandsOf]
  | cons a rest ih =>
    intro vis t v h
    by_cases hx : w.expandable a
    · simp only [printReferencesLoop, hx, if_true] at h
      cases h1 : printRecursiveReferences w fuel vis a with
      | none => rw [h1] at h; simp at h
      | some p =>
        obtain ⟨t1, v1⟩ := p
        rw [h1] at h
        dsimp only [] at h
        cases h2 : printReferencesLoop w fuel rest v1 with
        | none => rw [h2] at h; simp at h
        | some p2 =>
          obtain ⟨t2, v2⟩ := p2
          rw [h2] at h
          dsimp only [] at h
          simp only [Option.some.injEq, Prod.mk.injEq] at h
          obtain ⟨ht, hv⟩ := h
          subst ht
          subst hv
          have r1 := hA vis a t1 v1 h1
          have r2 := ih v1 t2 v2 h2
          constructor
          · rw [r2.1, r1.1]
            simp [expandsOf, expandsOf_append]
          · intro hnd
            exact r2.2 (r1.2 hnd)
    · simp only [printReferencesLoop, hx, if_false] at h
      exact ih vis t v h

theorem ctx_visited_of_rec (w : RefWorld) (fuel : Nat)
    (hA : ∀ vis a t v, printRecursiveReferences w fuel vis a = some (t, v) →
      v = vis ++ expandsOf t ∧ (vis.Nodup → v.Nodup)) :
    ∀ l vis t v, printContextLoop w fuel l vis = some (t, v) →
      v = vis ++ expandsOf t ∧ (vis.Nodup → v.Nodup) := by
  intro l
  induction l with
  | nil =>
    intro vis t v h
    simp only [printContextLoop, Option.some.injEq, Prod.mk.injEq] at h
    obtain ⟨ht, hv⟩ := h
    subst ht
    subst hv
    simp [expandsOf]
  | cons c rest ih =>
    intro vis t v h
    simp only [printContextLoop] at h
    cases h1 : printRecursiveReferences w fuel vis c with
    | none => rw [h1] at h; simp at h
    | some p =>
      obtain ⟨t1, v1⟩ := p
      rw [h1] at h
      dsimp only [] at h
      cases h2 : printContextLoop w fuel rest v1 with
      | none => rw [h2] at h; simp at h
      | some p2 =>
        obtain ⟨t2, v2⟩ := p2
        rw [h2] at h
        dsimp only [] at h
        simp only [Option.some.injEq, Prod.mk.injEq] at h
        obtain ⟨ht, hv⟩ := h
        subst ht
        subst hv
        have r1 := hA vis c t1 v1 h1
        have r2 := ih v1 t2 v2 h2
        constructor
        · rw [r2.1, r1.1]
          simp [expandsOf, expandsOf_append]
        · intro hnd
          exact r2.2 (r1.2 hnd)

theorem refs_visited_of_loops (w : RefWorld) (fuel : Nat)
    (hC : ∀ l vis t v, printReferencesLoop w fuel l vis = some (t, v) →
      v = vis ++ expandsOf t ∧ (vis.Nodup → v.Nodup))
    (hD : ∀ l vis t v, printContextLoop w fuel l vis = some (t, v) →
      v = vis ++ expandsOf t ∧ (vis.Nodup → v.Nodup)) :
    ∀ refs value vis t v, printReferences w fuel refs value vis = some (t, v) →
      v = vis ++ expandsOf t ∧ (vis.Nodup → v.Nodup) := by
  intro refs value vis t v h
  simp only [printReferences] at h
  cases h1 : printReferencesLoop w fuel refs vis with
  | none => rw [h1] at h; simp at h
  | some p =>
    obtain ⟨t1, v1⟩ := p
    rw [h1] at h
    dsimp only [] at h
    cases h2 : printContextLoop w fuel (ctxMatches w.ctxs value) v1 with
    | none => rw [h2] at h; simp at h
    | some p2 =>
      obtain ⟨t2, v2⟩ := p2
      rw [h2] at h
      dsimp only [] at h
      simp only [Option.some.injEq, Prod.mk.injEq] at h
      obtain ⟨ht, hv⟩ := h
      subst ht
      subst hv
      have r1 := hC refs vis t1 v1 h1
      have r2 := hD (ctxMatches w.ctxs value) v1 t2 v2 h2
      constructor
      · rw [r2.1, r1.1, expandsOf_append]
        simp
      · intro hnd
        exact r2.2 (r1.2 hnd)

theorem rec_visited_step (w : RefWorld) (fuel : Nat)
    (hB : ∀ refs value vis t v, printReferences w fuel refs value vis = some (t, v) →
      v = vis ++ expandsOf t ∧ (vis.Nodup → v.Nodup)) :
    ∀ vis a t v, printRecursiveReferences w (fuel + 1) vis a = some (t, v) →
      v = vis ++ expandsOf t ∧ (vis.Nodup → v.Nodup) := by
  intro vis a t v h
  by_cases hm : a ∈ vis
  · simp only [printRecursiveReferences, if_pos hm, Option.some.injEq, Prod.mk.injEq] at h
    obtain ⟨ht, hv⟩ := h
    subst ht
    subst hv
    simp [expandsOf]
  · simp only [printRecursiveReferences, if_neg hm] at h
    cases h1 : printReferences w fuel (lookupRefs w.g a) a (vis ++ [a]) with
    | none => rw [h1] at h; simp at h
    | some p =>
      obtain ⟨t1, v1⟩ := p
      rw [h1] at h
      dsimp only [] at h
      simp only [Option.some.injEq, Prod.mk.injEq] at h
      obtain ⟨ht, hv⟩ := h
      subst ht
      subst hv
      have r := hB (lookupRefs w.g a) a (vis ++ [a]) t1 v1 h1
      constructor
      · rw [r.1]
        simp [expandsOf]
      · intro hnd
        apply r.2
        simp [List.nodup_append, hnd, hm]

theorem traversal_visited (w : RefWorld) : ∀ fuel : Nat,
    (∀ vis a t v, printRecursiveReferences w fuel vis a = some (t, v) →
      v = vis ++ expandsOf t ∧ (vis.Nodup → v.Nodup)) ∧
    (∀ refs value vis t v, printReferences w fuel refs value vis = some (t, v) →
      v = vis ++ expandsOf t ∧ (vis.Nodup → v.Nodup)) := by
  intro fuel
  induction fuel with
  | zero =>
    have hA : ∀ vis a t v, printRecursiveReferences w 0 vis a = some (t, v) →
        v = vis ++ expandsOf t ∧ (vis.Nodup → v.Nodup) := by
      intro vis a t v h
      simp [printRecursiveReferences] at h
    exact ⟨hA, refs_visited_of_loops w 0 (loop_visited_of_rec w 0 hA)
      (ctx_visited_of_rec w 0 hA)⟩
  | succ fuel ih =>
    have hA := rec_visited_step w fuel ih.2
    exact ⟨hA, refs_visited_of_loops w (fuel + 1) (loop_visited_of_rec w (fuel + 1) hA)
      (ctx_visited_of_rec w (fuel + 1) hA)⟩

theorem loop_isSome_of_rec (w : RefWorld) (S : Finset Nat) (fuel : Nat)
    (hA : ∀ vis a, a ∈ S → (S \ vis.toFinset).card < fuel →
      (printRecursiveReferences w fuel vis a).isSome = true) :
    ∀ l vis, (∀ x ∈ l, x ∈ S) → (S \ vis.toFinset).card < fuel →
      (printReferencesLoop w fuel l vis).isSome = true := by
  intro l
  induction l with
  | nil => intro vis _ _; simp [printReferencesLoop]
  | cons a rest ih =>
    intro vis hl hcard
    by_cases hx : w.expandable a
    · have ha := hA vis a (hl a (by simp)) hcard
      obtain ⟨p, hp⟩ := Option.isSome_iff_exists.mp ha
      obtain ⟨t1, v1⟩ := p
      have hv1 := ((traversal_visited w fuel).1 vis a t1 v1 hp).1
      have hsub : vis.toFinset ⊆ v1.toFinset := by
        rw [hv1]
        intro x hx2
        simp only [List.mem_toFinset] at hx2 ⊢
        exact List.mem_append.mpr (Or.inl hx2)
      have hcard2 : (S \ v1.toFinset).card < fuel :=
        lt_of_le_of_lt
          (Finset.card_le_card (Finset.sdiff_subset_sdiff (Finset.Subset.refl S) hsub)) hcard
      have hrest := ih v1 (fun x hx2 => hl x (List.mem_cons_of_mem a hx2)) hcard2
      obtain ⟨p2, hp2⟩ := Option.isSome_iff_exists.mp hrest
      obtain ⟨t2, v2⟩ := p2
      simp [printReferencesLoop, hx, hp, hp2]
    · have hrest := ih vis (fun x hx2 => hl x (List.mem_cons_of_mem a hx2)) hcard
      simpa [printReferencesLoop, hx] using hrest

theorem ctx_isSome_of_rec (w : RefWorld) (S : Finset Nat) (fuel : Nat)
    (hA : ∀ vis a, a ∈ S → (S \ vis.toFinset).card < fuel →
      (printRecursiveReferences w fuel vis a).isSome = true) :
    ∀ l vis, (∀ x ∈ l, x ∈ S) → (S \ vis.toFinset).card < fuel →
      (printContextLoop w fuel l vis).isSome = true := by
  intro l
  induction l with
  | nil => intro vis _ _; simp [printContextLoop]
  | cons c rest ih =>
    intro vis hl hcard
    have ha := hA vis c (hl c (by simp)) hcard
    obtain ⟨p, hp⟩ := Option.isSome_iff_exists.mp ha
    obtain ⟨t1, v1⟩ := p
    have hv1 := ((traversal_visited w fuel).1 vis c t1 v1 hp).1
    have hsub : vis.toFinset ⊆ v1.toFinset := by
      rw [hv1]
      intro x hx2
      simp only [List.mem_toFinset] at hx2 ⊢
      exact List.mem_append.mpr (Or.inl hx2)
    have hcard2 : (S \ v1.toFinset).card < fuel :=
      lt_of_le_of_lt
        (Finset.card_le_card (Finset.sdiff_subset_sdiff (Finset.Subset.refl S) hsub)) hcard
    have hrest := ih v1 (fun x hx2 => hl x (List.mem_cons_of_mem c hx2)) hcard2
    obtain ⟨p2, hp2⟩ := Option.isSome_iff_exists.mp hrest
    obtain ⟨t2, v2⟩ := p2
    simp [printContextLoop, hp, hp2]

theorem refs_isSome_of_loops (w : RefWorld) (S : Finset Nat) (fuel : Nat)
    (hc : ∀ v c, c ∈ ctxMatches w.ctxs v → c ∈ S)
    (hA : ∀ vis a, a ∈ S → (S \ vis.toFinset).card < fuel →
      (printRecursiveReferences w fuel vis a).isSome = true) :
    ∀ refs value vis, (∀ x ∈ refs, x ∈ S) → (S \ vis.toFinset).card < fuel →
      (printReferences w fuel refs value vis).isSome = true := by
  intro refs value vis hl hcard
  have h1 := loop_isSome_of_rec w S fuel hA refs vis hl hcard
  obtain ⟨p, hp⟩ := Option.isSome_iff_exists.mp h1
  obtain ⟨t1, v1⟩ := p
  have hv1 := ((loop_visited_of_rec w fuel (traversal_visited w fuel).1) refs vis t1 v1 hp).1
  have hsub : vis.toFinset ⊆ v1.toFinset := by
    rw [hv1]
    intro x hx2
    simp only [List.mem_toFinset] at hx2 ⊢
    exact List.mem_append.mpr (Or.inl hx2)
  have hcard2 : (S \ v1.toFinset).card < fuel :=
    lt_of_le_of_lt
      (Finset.card_le_card (Finset.sdiff_subset_sdiff (Finset.Subset.refl S) hsub)) hcard
  have h2 := ctx_isSome_of_rec w S fuel hA (ctxMatches w.ctxs value) v1
    (fun x hx2 => hc value x hx2) hcard2
  obtain ⟨p2, hp2⟩ := Option.isSome_iff_exists.mp h2
  obtain ⟨t2, v2⟩ := p2
  simp [printReferences, hp, hp2]

theorem traversal_terminates (w : RefWorld) (S : Finset Nat)
    (hg : ∀ a x, x ∈ lookupRefs w.g a → x ∈ S)
    (hc : ∀ v c, c ∈ ctxMatches w.ctxs v → c ∈ S) :
    ∀ fuel : Nat,
      (∀ vis a, a ∈ S → (S \ vis.toFinset).card < fuel →
        (printRecursiveReferences w fuel vis a).isSome = true) ∧
      (∀ refs value vis, (∀ x ∈ refs, x ∈ S) → (S \ vis.toFinset).card < fuel →
        (printReferences w fuel refs value vis).isSome = true) := by
  intro fuel
  induction fuel with
  | zero =>
    constructor
    · intro vis a _ hcard; omega
    · intro refs value vis _ hcard; omega
  | succ fuel ih =>
    have hA : ∀ vis a, a ∈ S → (S \ vis.toFinset).card < fuel + 1 →
        (printRecursiveReferences w (fuel + 1) vis a).isSome = true := by
      intro vis a haS hcard
      by_cases hm : a ∈ vis
      · simp [printRecursiveReferences, hm]
      · have hmF : a ∉ vis.toFinset := by simpa using hm
        have hasd : a ∈ S \ vis.toFinset := Finset.mem_sdiff.mpr ⟨haS, hmF⟩
        have hcard2 : (S \ (vis ++ [a]).toFinset).card < fuel := by
          have hset : (vis ++ [a]).toFinset = insert a vis.toFinset := by
            ext x
            simp [List.mem_append, or_comm]
          rw [hset]
          have herase : S \ insert a vis.toFinset = (S \ vis.toFinset).erase a := by
            ext x
            simp only [Finset.mem_sdiff, Finset.mem_erase, Finset.mem_insert]
            tauto
          rw [herase, Finset.card_erase_of_mem hasd]
          have hpos : 0 < (S \ vis.toFinset).card := Finset.card_pos.mpr ⟨a, hasd⟩
          omega
        have hb := ih.2 (lookupRefs w.g a) a (vis ++ [a]) (fun x hx => hg a x hx) hcard2
        obtain ⟨p, hp⟩ := Option.isSome_iff_exists.mp hb
        obtain ⟨t1, v1⟩ := p
        simp [printRecursiveReferences, hm, hp]
    exact ⟨hA, refs_isSome_of_loops w S (fuel + 1) hc hA⟩

theorem lookupRefs_mem_reachable (w : RefWorld) (refs : List Nat) (a x : Nat)
    (hx : x ∈ lookupRefs w.g a) : x ∈ reachableAddrs w refs := by
  unfold lookupRefs at hx
  cases hf : w.g.find? (fun p => p.fst = a) with
  | none => rw [hf] at hx; simp at hx
  | some p =>
    rw [hf] at hx
    have hp : p ∈ w.g := List.mem_of_find?_eq_some hf
    simp only [reachableAddrs, List.mem_toFinset, List.mem_append]
    exact Or.inl (Or.inr (List.mem_flatMap.mpr ⟨p, hp, hx⟩))

theorem ctxMatches_mem_reachable (w : RefWorld) (refs : List Nat) (v c : Nat)
    (hc : c ∈ ctxMatches w.ctxs v) : c ∈ reachableAddrs w refs := by
  unfold ctxMatches at hc
  obtain ⟨p, hp, hcc⟩ := List.mem_flatMap.mp hc
  obtain ⟨s, hs, hrfl⟩ := List.mem_map.mp hcc
  simp only [reachableAddrs, List.mem_toFinset, List.mem_append]
  exact Or.inr (List.mem_map.mpr ⟨p, hp, hrfl⟩)

/-- C2: over any referrer graph — cycles included — the recursive expansion
seeded with any references vector completes with the computable fuel
`termFuel` (termination of the C++ recursion); in a completed run the single
visited vector threaded through the whole expansion ends as exactly the list
of expanded addresses, which is duplicate-free (each address expanded at most
once per traversal); and `PrintRecursiveReferences` on an already-visited
address emits only the `[seen above]` marker, leaving the visited vector
unchanged and performing no recursion. -/
theorem C2_recursive_expansion_cycle_safe (w : RefWorld) (refs : List Nat) (value : Nat) :
    (printReferences w (termFuel w refs) refs value []).isSome = true ∧
    (∀ t v, printReferences w (termFuel w refs) refs value [] = some (t, v) →
      v = expandsOf t ∧ (expandsOf t).Nodup) ∧
    (∀ (fuel : Nat) (vis : List Nat) (a : Nat), a ∈ vis →
      printRecursiveReferences w (fuel + 1) vis a = some ([RefEvent.marker a], vis)) := by
  refine ⟨?_, ?_, ?_⟩
  · apply (traversal_terminates w (reachableAddrs w refs)
      (fun a x hx => lookupRefs_mem_reachable w refs a x hx)
      (fun v c hc => ctxMatches_mem_reachable w refs v c hc) (termFuel w refs)).2
    · intro x hx
      simp only [reachableAddrs, List.mem_toFinset, List.mem_append]
      exact Or.inl (Or.inl hx)
    · simp [termFuel]
  · intro t v h
    have r := (traversal_visited w (termFuel w refs)).2 refs value [] t v h
    have hv : v = expandsOf t := by simpa using r.1
    refine ⟨hv, ?_⟩
    rw [← hv]
    exact r.2 (List.nodup_nil)
  · intro fuel vis a ha
    simp [printRecursiveReferences, ha]

theorem C2_witness :
    (printReferences cycleWorld (termFuel cycleWorld [2]) [2] 1 []).isSome = true ∧
    ([2, 1] : List Nat) = expandsOf cycleTrace ∧
    (expandsOf cycleTrace).Nodup ∧
    printRecursiveReferences cycleWorld 3 [2] 2 = some ([RefEvent.marker 2], [2]) := by
  have h := C2_recursive_expansion_cycle_safe cycleWorld [2] 1
  have hfuel : termFuel cycleWorld [2] = 3 := by decide
  have heval : printReferences cycleWorld (termFuel cycleWorld [2]) [2] 1 [] =
      some (cycleTrace, [2, 1]) := by
    rw [hfuel]
    simp [printReferences, printReferencesLoop, printRecursiveReferences, printContextLoop,
      lookupRefs, ctxMatches, cycleWorld, cycleTrace, List.find?]
  have h2 := h.2.1 cycleTrace [2, 1] heval
  exact ⟨h.1, h2.1, h2.2, h.2.2 2 [2] 2 (by decide)⟩

theorem jsonOk_accepts_valid_document :
    jsonOk "\x7b\"a\":[1,2,\"x\"],\"b\":null,\"c\":\x7b\x7d\x7d" = true := by
  decide

/-- C3: evaluating the serializer on a scan session (here a session whose
scan found no instances, so the snapshot holds only the two synthetic nodes)
shows the emitted document is not well-formed JSON: the source omits the
comma after the `edges`, `trace_function_infos` and `trace_tree` arrays,
omits the comma between `"<dummy>"` and the next string-table entry, leaves
a trailing comma after every string-table entry and after the `strings`
array, and never writes the closing brace of the top-level object. -/
theorem C3_snapshot_output_not_wellformed_json :
    jsonOk (ImplementSnapshot (DataEntry []
      (fun _ => { ntype := 3, size := 0, children := 0, childEdges := [] }))) = false := by
  decide

/-- C4: on a build with one instance (type tag `kObject`, decodable children)
the emitted node ids are `[1, 1, 1]` — `next_id` is passed by value into
`InitialEntry` and `AddGCRootsEntry`, so their `next_id += 2` never reaches
`DataEntry`: the GC-roots node reuses id 1 instead of the next id, the first
instance node also gets id 1, and ids are not distinct. -/
theorem C4_node_ids_collide :
    ((DataEntry [("Object", [100])]
        (fun _ => { ntype := 3, size := 16, children := 0, childEdges := [] })).nodes.map
      (fun n => n.id)) = [1, 1, 1] ∧
    ¬ ((DataEntry [("Object", [100])]
        (fun _ => { ntype := 3, size := 16, children := 0, childEdges := [] })).nodes.map
      (fun n => n.id)).Nodup := by
  constructor <;> decide
